import Mathlib

/-!
Verification of the factory_boy declaration/build engine.

Shallow embedding of `src/factory/builder.py` and `src/factory/declarations.py`:
Python dicts become insertion-ordered association lists (`List (κ × α)`), dict
assignment keeps the position of an existing key and appends new keys at the end,
and dict iteration order is list order (Python 3.7+ semantics).  Fallible code
returns `Except`/`Option`; lazy attribute resolution is given fuel to make the
recursion structural.
-/

namespace FactoryBoy

/-- Python values that appear as plain (non-declaration) objects: `None`, ints,
strings and tuples/sequences.  This is the carrier for literal declaration values,
sequence numbers and post-generation results. -/
inductive Val where
  | none
  | int (n : Int)
  | str (s : String)
  | tup (xs : List Val)

mutual

def Val.decEq : (a b : Val) → Decidable (a = b)
  | Val.none, Val.none => isTrue rfl
  | Val.none, Val.int _ => isFalse nofun
  | Val.none, Val.str _ => isFalse nofun
  | Val.none, Val.tup _ => isFalse nofun
  | Val.int _, Val.none => isFalse nofun
  | Val.int a, Val.int b =>
    match Int.decEq a b with
    | isTrue h => isTrue (by rw [h])
    | isFalse h => isFalse (by intro hh; injection hh; contradiction)
  | Val.int _, Val.str _ => isFalse nofun
  | Val.int _, Val.tup _ => isFalse nofun
  | Val.str _, Val.none => isFalse nofun
  | Val.str _, Val.int _ => isFalse nofun
  | Val.str a, Val.str b =>
    match String.decEq a b with
    | isTrue h => isTrue (by rw [h])
    | isFalse h => isFalse (by intro hh; injection hh; contradiction)
  | Val.str _, Val.tup _ => isFalse nofun
  | Val.tup _, Val.none => isFalse nofun
  | Val.tup _, Val.int _ => isFalse nofun
  | Val.tup _, Val.str _ => isFalse nofun
  | Val.tup xs, Val.tup ys =>
    match Val.decEqList xs ys with
    | isTrue h => isTrue (by rw [h])
    | isFalse h => isFalse (by intro hh; injection hh; contradiction)

def Val.decEqList : (xs ys : List Val) → Decidable (xs = ys)
  | [], [] => isTrue rfl
  | [], _ :: _ => isFalse nofun
  | _ :: _, [] => isFalse nofun
  | x :: xs, y :: ys =>
    match Val.decEq x y with
    | isTrue h1 =>
      match Val.decEqList xs ys with
      | isTrue h2 => isTrue (by rw [h1, h2])
      | isFalse h2 => isFalse (by intro hh; injection hh; contradiction)
    | isFalse h1 => isFalse (by intro hh; injection hh; contradiction)

end

instance : DecidableEq Val := Val.decEq

instance {ε α : Type} [DecidableEq ε] [DecidableEq α] : DecidableEq (Except ε α) :=
  fun a b =>
    match a, b with
    | Except.ok x, Except.ok y =>
      match decEq x y with
      | isTrue h => isTrue (by rw [h])
      | isFalse h => isFalse (by intro hh; injection hh; contradiction)
    | Except.ok _, Except.error _ => isFalse nofun
    | Except.error _, Except.ok _ => isFalse nofun
    | Except.error x, Except.error y =>
      match decEq x y with
      | isTrue h => isTrue (by rw [h])
      | isFalse h => isFalse (by intro hh; injection hh; contradiction)

/-- Body of a `LazyAttribute` function: either a constant, or a read of another
attribute of the resolver (`lambda o: o.n`), which is how cross-field dependencies
arise in `Resolver.__getattr__`. -/
inductive DExpr where
  | lit (v : Val)
  | ref (n : String)
deriving DecidableEq

/-- Objects stored in a `DeclarationSet`: plain values, the `BaseDeclaration`
variants embedded here (`LazyFunction`, `LazyAttribute`, `Maybe`), and
post-generation declarations.  `creationCounter` is the instance attribute
`creation_counter` assigned by `BaseDeclaration.__init__` (declarations.py:27-30)
resp. `PostGenerationDeclaration.__init__` (declarations.py:542-544).
`Maybe.__init__` (declarations.py:432-435) never calls `super().__init__()`, so a
`maybe` carries no own counter — reading its `creation_counter` falls back to the
class attribute, i.e. the current global counter (see `pythonCreationCounter`).
`postGen` abstracts a `PostGenerationDeclaration` whose `call` returns the stored
`result` (as `FakePostGenerationDeclaration.call`, builder.py:115-116, does); the
dependence of concrete hooks' `call` on `(instance, step, context)` is irrelevant
to the ordering and key-set properties verified here. -/
inductive V where
  | val (v : Val)
  | lazyFunction (creationCounter : Nat) (ret : Val)
  | lazyAttribute (creationCounter : Nat) (body : DExpr)
  | maybe (decider : String) (yes : V) (no : V)
  | postGen (creationCounter : Nat) (result : Val)
deriving DecidableEq

/-- `isinstance(v, declarations.BaseDeclaration)` (builder.py:310). -/
def isBaseDeclaration : V → Bool
  | V.lazyFunction _ _ => true
  | V.lazyAttribute _ _ => true
  | V.maybe _ _ _ => true
  | _ => false

/-- `isinstance(v, declarations.PostGenerationDeclaration)` (builder.py:127). -/
def isPostGenerationDeclaration : V → Bool
  | V.postGen _ _ => true
  | _ => false

/-- Python truthiness of the plain values in `Val`. -/
def pythonTruthy : Val → Bool
  | Val.none => false
  | Val.int n => decide (n ≠ 0)
  | Val.str s => decide (s ≠ "")
  | Val.tup xs => decide (xs ≠ [])

/-- Python truthiness of an arbitrary object: plain values by `pythonTruthy`,
declaration objects are ordinary (truthy) Python objects. -/
def pythonTruthyV : V → Bool
  | V.val v => pythonTruthy v
  | _ => true

/-- Reading `v.creation_counter` when the global `BaseDeclaration.creation_counter`
class attribute currently holds `g`: declarations whose `__init__` assigned an
instance attribute return it; a `maybe` (no instance attribute, because
`Maybe.__init__` skips `super().__init__()`) falls back to the class attribute `g`;
a plain value has no such attribute at all (`AttributeError`, hence `none`). -/
def pythonCreationCounter (g : Nat) : V → Option Nat
  | V.val _ => none
  | V.lazyFunction c _ => some c
  | V.lazyAttribute c _ => some c
  | V.maybe _ _ _ => some g
  | V.postGen c _ => some c

/-! ### Python dict primitives (insertion-ordered association lists) -/

/-- `d[k]` lookup returning `none` when absent (first binding wins). -/
def dictGet {κ α : Type} [DecidableEq κ] : List (κ × α) → κ → Option α
  | [], _ => none
  | p :: ps, k => if p.1 = k then some p.2 else dictGet ps k

/-- `d[k] = v`: replace in place if the key exists, else append at the end —
Python dict assignment order semantics. -/
def dictSet {κ α : Type} [DecidableEq κ] : List (κ × α) → κ → α → List (κ × α)
  | [], k, v => [(k, v)]
  | p :: ps, k, v => if p.1 = k then (k, v) :: ps else p :: dictSet ps k v

/-- `k in d`. -/
def hasKey {κ α : Type} [DecidableEq κ] (xs : List (κ × α)) (k : κ) : Bool :=
  match dictGet xs k with
  | some _ => true
  | none => false

/-- The first defined of two optional values (lookup in one dict, falling back to
another) — used to state dict-update facts. -/
def optionFirst {α : Type} : Option α → Option α → Option α
  | some v, _ => some v
  | Option.none, o => o

/-- `d.pop(k, default)` split into the popped value and the remaining dict. -/
def dictPop {κ α : Type} [DecidableEq κ] (xs : List (κ × α)) (k : κ) :
    Option α × List (κ × α) :=
  (dictGet xs k, xs.filter (fun p => if p.1 = k then false else true))

/-! ### DeclarationSet (builder.py:15-104), value-semantics model

Within a single `copy()`-then-`update()` round the observable contents of the
copy agree with plain value semantics, so this model is used for everything
except claim C1; the reference (aliasing) semantics of the per-field context
dicts, which `copy()` shares between the original and the copy, is modelled
separately in namespace `AliasModel`. -/

structure DSet where
  declarations : List (String × V)
  contexts : List (String × List (String × V))
deriving DecidableEq

/-- Split a character list at the first occurrence of `sep`: the part before it
and the part after it (computable by kernel reduction, unlike `String.splitOn`). -/
def findSplit (sep : List Char) : List Char → Option (List Char × List Char)
  | [] => Option.none
  | c :: cs =>
    if List.isPrefixOf sep (c :: cs) then some ([], (c :: cs).drop sep.length)
    else
      match findSplit sep cs with
      | some q => some (c :: q.1, q.2)
      | Option.none => Option.none

/-- `DeclarationSet.split` (builder.py:24-29): split on the first occurrence of
the reserved separator `'__'` (Python `entry.split('__', 1)`), or return
`(entry, None)` when the separator is absent. -/
def DSet.split (entry : String) : String × Option String :=
  match findSplit ['_', '_'] entry.toList with
  | some q => (String.mk q.1, some (String.mk q.2))
  | Option.none => (entry, Option.none)

/-- `DeclarationSet.join` (builder.py:31-33). -/
def DSet.join (root subkey : String) : String :=
  root ++ "__" ++ subkey

/-- `self.contexts[root][sub] = v` where `contexts` is a `defaultdict(dict)`:
a missing root gets a fresh empty inner dict first. -/
def ctxSet (cs : List (String × List (String × V))) (root sub : String) (v : V) :
    List (String × List (String × V)) :=
  match dictGet cs root with
  | some inner => dictSet cs root (dictSet inner sub v)
  | Option.none => cs ++ [(root, [(sub, v)])]

/-- The key-classification loop of `DeclarationSet.update` (builder.py:44-49),
applied over the incoming dict in iteration order. -/
def DSet.applyValues (s : DSet) (vs : List (String × V)) : DSet :=
  vs.foldl
    (fun acc kv =>
      match DSet.split kv.1 with
      | (root, Option.none) => { acc with declarations := dictSet acc.declarations root kv.2 }
      | (root, some sub) => { acc with contexts := ctxSet acc.contexts root sub kv.2 })
    s

/-- `set(self.contexts) - set(self.declarations)` (builder.py:51), in context
iteration order. -/
def DSet.extraContextRoots (s : DSet) : List String :=
  (s.contexts.map Prod.fst).filter (fun r => !hasKey s.declarations r)

/-- Payload of `errors.InvalidDeclarationError` raised by `update`
(builder.py:52-62): the offending deep keys (root joined with sub-key, with their
values) and the sorted known field names. -/
structure UpdateError where
  offending : List (String × V)
  known : List String
deriving DecidableEq

/-- `DeclarationSet.update` (builder.py:41-62).  The keys are applied first
(mutating the set), then the deep-context roots are checked once against the
fields; the second component is the raised error, if any. -/
def DSet.update (s : DSet) (vs : List (String × V)) : DSet × Option UpdateError :=
  let s2 := s.applyValues vs
  let extra := s2.extraContextRoots
  if extra = [] then
    (s2, Option.none)
  else
    (s2,
     some
       { offending :=
           extra.foldr
             (fun root acc =>
               ((dictGet s2.contexts root).getD []).map (fun p => (DSet.join root p.1, p.2)) ++ acc)
             []
         known := (s2.declarations.map Prod.fst).insertionSort (fun a b => a ≤ b) })

/-- `DeclarationSet.filter` (builder.py:64-68). -/
def DSet.filterEntries (s : DSet) (entries : List String) : List String :=
  entries.filter (fun e => hasKey s.declarations (DSet.split e).1)

/-- Key/counter pairs used by `sorted()`, reading each declaration's
`creation_counter` under global counter `g` and defaulting (only for the totality
of the definition) to 0. -/
def DSet.counterPairs (s : DSet) (g : Nat) : List (String × Nat) :=
  s.declarations.map (fun p => (p.1, (pythonCreationCounter g p.2).getD 0))

/-- Comparison by creation counter, the sort key of `sorted()`. -/
def ctrLe (a b : String × Nat) : Prop :=
  a.2 ≤ b.2

instance : DecidableRel ctrLe :=
  fun a b => Nat.decLe a.2 b.2

instance : IsTotal (String × Nat) ctrLe :=
  ⟨fun a b => Nat.le_total a.2 b.2⟩

instance : IsTrans (String × Nat) ctrLe :=
  ⟨fun _ _ _ => Nat.le_trans⟩

/-- `DeclarationSet.sorted` (builder.py:70-74): field names ordered by ascending
`creation_counter` (Python `sorted` is stable; `List.insertionSort` with `≤` has
the same stability).  Returns `none` when some declaration has no
`creation_counter` attribute at all (Python would raise `AttributeError`). -/
def DSet.sortedNames (s : DSet) (g : Nat) : Option (List String) :=
  if s.declarations.all (fun p => (pythonCreationCounter g p.2).isSome) then
    some (((s.counterPairs g).insertionSort ctrLe).map Prod.fst)
  else
    Option.none

/-- `DeclarationSet.copy` (builder.py:35-39) in the value-semantics model; the
sharing of inner context dicts is modelled in `AliasModel.copy`. -/
def DSet.copy (s : DSet) : DSet :=
  { declarations := s.declarations, contexts := s.contexts }

/-! ### Creation counters (declarations.py:17-30, 431-435, 536-544)

`BaseDeclaration.creation_counter` and `PostGenerationDeclaration.creation_counter`
are class attributes used as two global counters; `__init__` stores the current
value as an instance attribute and increments the class attribute.  A constructed
declaration object is modelled by whether it received an own counter. -/

structure GlobalCounters where
  baseCounter : Nat
  postCounter : Nat
deriving DecidableEq

/-- A declaration object as far as its `creation_counter` attribute is concerned:
`ownCounter` is the instance attribute, when `__init__` assigned one. -/
structure PyDecl where
  ownCounter : Option Nat
deriving DecidableEq

/-- `BaseDeclaration.__init__` (declarations.py:27-30): assign the current global
base counter to the instance and increment the global. -/
def baseDeclarationInit (g : GlobalCounters) : PyDecl × GlobalCounters :=
  ({ ownCounter := some g.baseCounter }, { g with baseCounter := g.baseCounter + 1 })

/-- `PostGenerationDeclaration.__init__` (declarations.py:542-544). -/
def postGenerationDeclarationInit (g : GlobalCounters) : PyDecl × GlobalCounters :=
  ({ ownCounter := some g.postCounter }, { g with postCounter := g.postCounter + 1 })

/-- `Maybe.__init__` (declarations.py:432-435): sets `decider`/`yes`/`no` but
never calls `super().__init__()`, so no instance `creation_counter` is assigned
and the global counter is not incremented. -/
def maybeInit : PyDecl :=
  { ownCounter := Option.none }

/-- Reading `d.creation_counter`: the instance attribute if present, else Python
attribute lookup falls back to the class attribute, i.e. the current global base
counter. -/
def readCreationCounter (d : PyDecl) (g : GlobalCounters) : Nat :=
  d.ownCounter.getD g.baseCounter

/-! ### Reference-semantics model of `copy`/`update` (for claim C1)

`DeclarationSet.copy` (builder.py:35-39) does `other.contexts = self.contexts.copy()`:
a shallow copy of the `defaultdict`, so the *inner* per-field context dicts are the
same Python objects in the original and the copy.  To express this, context dicts
live in an explicit store addressed by references; `contexts` maps each root to a
reference. -/

namespace AliasModel

/-- The heap of inner context dict objects. -/
structure Store where
  dicts : List (Nat × List (String × V))
  nextRef : Nat
deriving DecidableEq

structure DeclarationSet where
  declarations : List (String × V)
  contexts : List (String × Nat)
deriving DecidableEq

def emptySet : DeclarationSet := { declarations := [], contexts := [] }

def emptyStore : Store := { dicts := [], nextRef := 0 }

/-- `self.contexts[root]` on the `defaultdict(dict)`: return the existing inner
dict's reference, or allocate a fresh empty dict and bind the root to it. -/
def contextRef (s : DeclarationSet) (st : Store) (root : String) :
    Nat × DeclarationSet × Store :=
  match dictGet s.contexts root with
  | some r => (r, s, st)
  | Option.none =>
    (st.nextRef,
     { s with contexts := s.contexts ++ [(root, st.nextRef)] },
     { dicts := st.dicts ++ [(st.nextRef, [])], nextRef := st.nextRef + 1 })

/-- One iteration of the `update` classification loop (builder.py:44-49): a flat
key replaces the declaration, a deep key writes through the (possibly shared)
inner context dict in the store. -/
def applyOne (s : DeclarationSet) (st : Store) (kv : String × V) :
    DeclarationSet × Store :=
  match DSet.split kv.1 with
  | (root, Option.none) =>
    ({ s with declarations := dictSet s.declarations root kv.2 }, st)
  | (root, some sub) =>
    let rss := contextRef s st root
    let inner := (dictGet rss.2.2.dicts rss.1).getD []
    (rss.2.1, { rss.2.2 with dicts := dictSet rss.2.2.dicts rss.1 (dictSet inner sub kv.2) })

/-- `DeclarationSet.update` (builder.py:41-62) under reference semantics.  The
final `Bool` records whether the deep-context validation raised
`InvalidDeclarationError`. -/
def update (s : DeclarationSet) (st : Store) (vs : List (String × V)) :
    DeclarationSet × Store × Bool :=
  let applied := vs.foldl (fun acc kv => applyOne acc.1 acc.2 kv) (s, st)
  (applied.1, applied.2,
   decide (((applied.1.contexts.map Prod.fst).filter
     (fun r => !hasKey applied.1.declarations r)) ≠ []))

/-- `DeclarationSet.copy` (builder.py:35-39): fresh top-level dicts
(`declarations.copy()`, `contexts.copy()`), but the per-field inner context dicts
are shared — the reference list is copied unchanged. -/
def copy (s : DeclarationSet) : DeclarationSet :=
  { declarations := s.declarations, contexts := s.contexts }

/-- Observe the deep-context mapping of field `root` of set `s`: follow the
reference into the store (empty when the root has no context dict). -/
def contextOf (s : DeclarationSet) (st : Store) (root : String) : List (String × V) :=
  ((dictGet s.contexts root).bind (dictGet st.dicts)).getD []

end AliasModel

/-! ### Resolver (builder.py:260-334)

A `Resolver` is bound to one `DeclarationSet`; its mutable state is the value
cache `__values` and the stack `__pending` of names currently being computed.
`evalLog` additionally records every invocation of a declaration's `evaluate`
(the append at the moment builder.py:311 pushes the name), so that the
"evaluate runs at most once" claims can be stated.  `Resolver.__getattr__` and
`BaseDeclaration.evaluate` dispatch are mutually recursive through declarations
that read other attributes, so both are folded into one fuel-indexed function
`resolverRun` over tasks. -/

structure RState where
  values : List (String × V)
  pending : List String
  evalLog : List String
deriving DecidableEq

def initRState : RState :=
  { values := [], pending := [], evalLog := [] }

/-- Errors raised during attribute resolution.  `cyclic` is
`errors.CyclicDefinitionError` with the accessed name and the full pending stack
(builder.py:301-304); `unknownAttribute` is the `AttributeError` of
builder.py:324-327 with its diagnostic payload; `fuelExhausted` is an artifact of
the fuel-indexed embedding and corresponds to no Python behaviour. -/
inductive RErr where
  | cyclic (name : String) (stack : List String)
  | unknownAttribute (name : String) (values : List (String × V))
      (declarations : List (String × V))
  | fuelExhausted
deriving DecidableEq

/-- A resolution task: an attribute access `getattr(resolver, name)`
(`Resolver.__getattr__`, builder.py:295-327) or an invocation
`declaration.evaluate(instance, step, extra)` of a `BaseDeclaration`. -/
inductive RTask where
  | attr (name : String)
  | eval (d : V) (extra : List (String × V))
deriving DecidableEq

/-- One resolver bound to declaration set `ds`, executing a task.

`attr name` is `Resolver.__getattr__` (builder.py:295-327): a pending name raises
the cyclic error; a cached name returns the cached value; a declared
`BaseDeclaration` is pushed on the pending stack (and logged), evaluated with the
field's deep context as `extra`, popped in the `finally`, and its value cached; a
declared non-declaration object is cached and returned as is; anything else
raises the unknown-attribute error.

`eval d extra` is `d.evaluate(...)`: `LazyFunction.evaluate`
(declarations.py:63-65) calls the stored zero-argument function;
`LazyAttribute.evaluate` (declarations.py:80-82) calls the stored function on the
resolver, here an attribute read or a constant; `Maybe.evaluate`
(declarations.py:437-449) reads `getattr(instance, self.decider, None)` — an
`AttributeError` anywhere below that lookup is swallowed and the decider becomes
`None`, hence falsy — then evaluates the chosen branch if it is a
`BaseDeclaration`, else returns it unchanged.  Non-`BaseDeclaration` objects are
never dispatched to `eval` by `attr`; for totality they evaluate to themselves. -/
def resolverRun (ds : DSet) : Nat → RState → RTask → Except RErr V × RState
  | 0, s, _ => (Except.error RErr.fuelExhausted, s)
  | fuel + 1, s, RTask.attr name =>
    if name ∈ s.pending then
      (Except.error (RErr.cyclic name s.pending), s)
    else
      match dictGet s.values name with
      | some v => (Except.ok v, s)
      | Option.none =>
        match dictGet ds.declarations name with
        | some dv =>
          if isBaseDeclaration dv then
            let extra := (dictGet ds.contexts name).getD []
            let s1 : RState :=
              { s with pending := s.pending ++ [name], evalLog := s.evalLog ++ [name] }
            match resolverRun ds fuel s1 (RTask.eval dv extra) with
            | (Except.ok v, s2) =>
              let s3 : RState := { s2 with pending := s2.pending.dropLast }
              (Except.ok v, { s3 with values := dictSet s3.values name v })
            | (Except.error e, s2) =>
              (Except.error e, { s2 with pending := s2.pending.dropLast })
          else
            (Except.ok dv, { s with values := dictSet s.values name dv })
        | Option.none =>
          (Except.error (RErr.unknownAttribute name s.values ds.declarations), s)
  | fuel + 1, s, RTask.eval d extra =>
    match d with
    | V.val v => (Except.ok (V.val v), s)
    | V.lazyFunction _ ret => (Except.ok (V.val ret), s)
    | V.lazyAttribute _ body =>
      (match body with
       | DExpr.lit v => (Except.ok (V.val v), s)
       | DExpr.ref n => resolverRun ds fuel s (RTask.attr n))
    | V.maybe decider yes no =>
      (match resolverRun ds fuel s (RTask.attr decider) with
       | (Except.ok dv, s1) =>
         let target := if pythonTruthyV dv then yes else no
         if isBaseDeclaration target then resolverRun ds fuel s1 (RTask.eval target extra)
         else (Except.ok target, s1)
       | (Except.error (RErr.unknownAttribute _ _ _), s1) =>
         if isBaseDeclaration no then resolverRun ds fuel s1 (RTask.eval no extra)
         else (Except.ok no, s1)
       | (Except.error e, s1) => (Except.error e, s1))
    | V.postGen c r => (Except.ok (V.postGen c r), s)

/-- `getattr(resolver, name)` at the top level. -/
def resolverGetattr (ds : DSet) (fuel : Nat) (s : RState) (name : String) :
    Except RErr V × RState :=
  resolverRun ds fuel s (RTask.attr name)

/-- The states a resolver can be in over its lifetime: the fresh state, plus
anything reached by attribute accesses (successful or not — the `finally` of
builder.py:318-319 restores the pending stack even when an error propagates). -/
inductive Reachable (ds : DSet) : RState → Prop
  | init : Reachable ds initRState
  | step (s : RState) (fuel : Nat) (name : String) :
      Reachable ds s → Reachable ds (resolverGetattr ds fuel s name).2

/-- `BuildStep.resolve` (builder.py:170-178): create a resolver over the
declaration set and eagerly pull every declared field name, in declaration-dict
iteration order, filling the step's attribute map.  Any resolution error
propagates and aborts the build. -/
def resolveFields (ds : DSet) (fuel : Nat) :
    List String → RState → List (String × V) → Except RErr (List (String × V) × RState)
  | [], s, acc => Except.ok (acc, s)
  | n :: ns, s, acc =>
    match resolverGetattr ds fuel s n with
    | (Except.ok v, s1) => resolveFields ds fuel ns s1 (dictSet acc n v)
    | (Except.error e, _) => Except.error e

/-- `BuildStep.resolve` from the fresh resolver state. -/
def buildStepResolve (ds : DSet) (fuel : Nat) :
    Except RErr (List (String × V) × RState) :=
  resolveFields ds fuel (ds.declarations.map Prod.fst) initRState []

/-- The field names in the order `resolve` walks them (for comparison with
`sorted()`); empty when resolution fails. -/
def resolveWalkOrder (ds : DSet) (fuel : Nat) : List String :=
  match buildStepResolve ds fuel with
  | Except.ok (attrs, _) => attrs.map Prod.fst
  | Except.error _ => []

/-! ### Post-generation extraction and hooks (declarations.py:520-686) -/

/-- `ExtractionContext` (declarations.py:520-533). -/
structure ExtractionContext where
  value : V
  did_extract : Bool
  extra : List (String × V)
  for_field : String
deriving DecidableEq

/-- Modelled from the spec: `utils.extract_dict` (the `utils` module is not among
the sources) pulls out every deep-context key addressed to `name` — keys of the
form `name__sub` — mapping the stripped sub-key `sub` to its value. -/
def extract_dict (name : String) (attrs : List (String × V)) : List (String × V) :=
  attrs.filterMap
    (fun p =>
      let sepName := name.toList ++ ['_', '_']
      if List.isPrefixOf sepName p.1.toList then
        some (String.mk (p.1.toList.drop sepName.length), p.2)
      else Option.none)

/-- `PostGenerationDeclaration.extract` (declarations.py:546-567): pop the
explicitly supplied value for `name` (recording whether one was present), then
pull the deep-context keys addressed to `name` out of the remainder. -/
def pgExtract (name : String) (attrs : List (String × V)) : ExtractionContext :=
  let popped := dictPop attrs name
  { value := (popped.1).getD (V.val Val.none)
    did_extract := (popped.1).isSome
    extra := extract_dict name popped.2
    for_field := name }

/-- `declaration.call(instance, step, context)` for the post-generation
declarations of this embedding: a `postGen` returns its stored result (the
`FakePostGenerationDeclaration.call` shape, builder.py:115-116); any other object
has no such method (`AttributeError`, hence `none`). -/
def pgCall : V → ExtractionContext → Option Val
  | V.postGen _ result, _ => some result
  | _, _ => Option.none

/-- `PostGenerationMethodCall` configuration (declarations.py:661-665). -/
structure PostGenerationMethodCall where
  method_name : String
  method_args : List V
  method_kwargs : List (String × V)
deriving DecidableEq

/-- `tuple(value)`: unpacking a supplied value as a full positional-argument
sequence; a non-sequence raises `TypeError` (`none`). -/
def tupleOfV : V → Option (List V)
  | V.val (Val.tup xs) => some (xs.map V.val)
  | _ => Option.none

/-- The positional arguments computed by `PostGenerationMethodCall.call`
(declarations.py:667-675). -/
def PostGenerationMethodCall.passedArguments (m : PostGenerationMethodCall)
    (context : ExtractionContext) : Option (List V) :=
  if !context.did_extract then some m.method_args
  else if m.method_args.length ≤ 1 then some [context.value]
  else tupleOfV context.value

/-- The keyword arguments computed by `PostGenerationMethodCall.call`
(declarations.py:677-678): a copy of the static configuration updated with the
deep-context extras. -/
def PostGenerationMethodCall.passedKeywordArguments (m : PostGenerationMethodCall)
    (context : ExtractionContext) : List (String × V) :=
  context.extra.foldl (fun acc p => dictSet acc p.1 p.2) m.method_kwargs

/-! ### StepBuilder (builder.py:119-257) -/

/-- `parse_declarations` errors: the shadowing check of builder.py:128-134 and
`InvalidDeclarationError` propagating out of `DeclarationSet.update`. -/
inductive ParseErr where
  | shadows (name : String)
  | invalidDeclaration (e : UpdateError)
deriving DecidableEq

/-- The first loop of `parse_declarations` (builder.py:124-137): split the raw
overrides, in iteration order, into known post-generation declarations and
everything else, raising on a post-declaration that shadows a pre-declaration. -/
def splitPrePost (pre : DSet) :
    List (String × V) → Except ParseErr (List (String × V) × List (String × V))
  | [] => Except.ok ([], [])
  | (k, v) :: rest =>
    if isPostGenerationDeclaration v then
      if hasKey pre.declarations k then Except.error (ParseErr.shadows k)
      else
        match splitPrePost pre rest with
        | Except.ok (post, maybenonpost) => Except.ok ((k, v) :: post, maybenonpost)
        | Except.error e => Except.error e
    else
      match splitPrePost pre rest with
      | Except.ok (post, maybenonpost) => Except.ok (post, (k, v) :: maybenonpost)
      | Except.error e => Except.error e

/-- `parse_declarations` (builder.py:119-159). -/
def parse_declarations (decls : List (String × V)) (base_pre base_post : DSet) :
    Except ParseErr (DSet × DSet) :=
  let pre0 := base_pre.copy
  let post0 := base_post.copy
  match splitPrePost pre0 decls with
  | Except.error e => Except.error e
  | Except.ok (extra_post, extra_maybenonpost) =>
    match post0.update extra_post with
    | (_, some e) => Except.error (ParseErr.invalidDeclaration e)
    | (post1, Option.none) =>
      let post_overrides := post1.filterEntries (extra_maybenonpost.map Prod.fst)
      let ctxvals :=
        (extra_maybenonpost.filter (fun p => decide (p.1 ∈ post_overrides))).map
          (fun p => (DSet.join (DSet.split p.1).1 p.1, p.2))
      match post1.update ctxvals with
      | (_, some e) => Except.error (ParseErr.invalidDeclaration e)
      | (post2, Option.none) =>
        let prevals := extra_maybenonpost.filter (fun p => !decide (p.1 ∈ post_overrides))
        match pre0.update prevals with
        | (_, some e) => Except.error (ParseErr.invalidDeclaration e)
        | (pre1, Option.none) => Except.ok (pre1, post2)

/-- The external factory-metadata collaborator (spec §6): base declaration sets,
the value `next_sequence()` returns for this build call, and the instance the
opaque `instantiate` callback produces.  `prepare_arguments` only repackages the
attribute map for `instantiate` and is not observable here. -/
structure FactoryMeta where
  pre_declarations : DSet
  post_declarations : DSet
  next_sequence_val : Int
  instantiate_result : Val
deriving DecidableEq

/-- `StepBuilder` after `__init__` (builder.py:202-206): `'__sequence'` has been
popped out of the extras; `force_init_sequence` is the popped value, `V.val
Val.none` both when the key was absent and when it was explicitly `None` (the
`extras.pop('__sequence', None)` default conflates the two). -/
structure StepBuilderState where
  factory_meta : FactoryMeta
  extras : List (String × V)
  force_init_sequence : V
deriving DecidableEq

/-- `StepBuilder.__init__` (builder.py:202-206). -/
def stepBuilderInit (meta : FactoryMeta) (extras : List (String × V)) :
    StepBuilderState :=
  let popped := dictPop extras "__sequence"
  { factory_meta := meta
    extras := popped.2
    force_init_sequence := (popped.1).getD (V.val Val.none) }

/-- The observable events of one `build` call, in execution order. -/
inductive BuildEvent where
  | instantiated
  | postgenCalled (name : String)
deriving DecidableEq

inductive BuildErr where
  | parse (e : ParseErr)
  | resolve (e : RErr)
  | attributeError
deriving DecidableEq

/-- Outcome of `StepBuilder.build`: the sequence assigned to the `BuildStep`, the
resolved attribute map, the event trace (instantiation followed by the
post-generation calls in execution order), and the results map handed to
`use_postgeneration_results`. -/
structure BuildOutcome where
  sequence : V
  attributes : List (String × V)
  events : List BuildEvent
  postgenResults : List (String × Val)
deriving DecidableEq

/-- The post-generation loop of `StepBuilder.build` (builder.py:239-247):
`for declaration_name in post.sorted()`, extract the context from the field's
deep-context dict, call the declaration, and record the result under the name. -/
def runPostgen (post : DSet) :
    List String → List (String × Val) → Except BuildErr (List (String × Val))
  | [], acc => Except.ok acc
  | n :: ns, acc =>
    match dictGet post.declarations n with
    | Option.none => Except.error BuildErr.attributeError
    | some d =>
      match pgCall d (pgExtract n ((dictGet post.contexts n).getD [])) with
      | Option.none => Except.error BuildErr.attributeError
      | some r => runPostgen post ns (dictSet acc n r)

/-- `StepBuilder.build` (builder.py:208-253).  `force_sequence` is the
`force_sequence` argument (`V.val Val.none` when not passed); `fuel` bounds the
lazy resolution recursion; `g` is the current global
`BaseDeclaration.creation_counter` (read only if `sorted()` must fall back to the
class attribute).  The sequence priority is builder.py:217-222; pre-declarations
are resolved eagerly; the instantiate callback runs; then the post-generation
declarations run in `post.sorted()` order and their results are collected. -/
def stepBuilderBuild (sb : StepBuilderState) (force_sequence : V) (fuel g : Nat) :
    Except BuildErr BuildOutcome :=
  match parse_declarations sb.extras sb.factory_meta.pre_declarations
      sb.factory_meta.post_declarations with
  | Except.error e => Except.error (BuildErr.parse e)
  | Except.ok (pre, post) =>
    let sequence :=
      if force_sequence ≠ V.val Val.none then force_sequence
      else if sb.force_init_sequence ≠ V.val Val.none then sb.force_init_sequence
      else V.val (Val.int sb.factory_meta.next_sequence_val)
    match buildStepResolve pre fuel with
    | Except.error e => Except.error (BuildErr.resolve e)
    | Except.ok (attrs, _) =>
      match post.sortedNames g with
      | Option.none => Except.error BuildErr.attributeError
      | some names =>
        match runPostgen post names [] with
        | Except.error e => Except.error e
        | Except.ok results =>
          Except.ok
            { sequence := sequence
              attributes := attrs
              events := BuildEvent.instantiated :: names.map BuildEvent.postgenCalled
              postgenResults := results }

/-! ### Concrete scenarios referenced by individual theorems -/

/-- A base set `DeclarationSet({'x': 0, 'x__a': 1})` built in a fresh store. -/
def c1Step0 : AliasModel.DeclarationSet × AliasModel.Store × Bool :=
  AliasModel.update AliasModel.emptySet AliasModel.emptyStore
    [("x", V.val (Val.int 0)), ("x__a", V.val (Val.int 1))]

/-- `c1Step0`'s set, copied with `DeclarationSet.copy`, then updated with the
call-time deep override `{'x__b': 2}`. -/
def c1Step1 : AliasModel.DeclarationSet × AliasModel.Store × Bool :=
  AliasModel.update (AliasModel.copy c1Step0.1) c1Step0.2.1 [("x__b", V.val (Val.int 2))]

/-- Two declarations inserted in the opposite of their creation order: `'b'`
(counter 1) first, then `'a'` (counter 0). -/
def c2Set : DSet :=
  { declarations := [("b", V.lazyFunction 1 (Val.int 10)), ("a", V.lazyFunction 0 (Val.int 20))]
    contexts := [] }

/-- Two `Maybe` fields deciding on `'d'`, and `'d'` itself a `LazyAttribute`
whose function reads the undeclared attribute `'z'` (so evaluating `'d'` raises
`AttributeError`, which each `Maybe` decider lookup swallows). -/
def c4Set : DSet :=
  { declarations :=
      [("m1", V.maybe "d" (V.val (Val.int 1)) (V.val (Val.int 2))),
       ("m2", V.maybe "d" (V.val (Val.int 1)) (V.val (Val.int 2))),
       ("d", V.lazyAttribute 5 (DExpr.ref "z"))]
    contexts := [] }

/-- Resolver state after pulling `m1` on `c4Set`. -/
def c4State1 : RState :=
  (resolverGetattr c4Set 10 initRState "m1").2

/-- Resolver state after pulling `m1` and then `m2` on `c4Set`. -/
def c4State2 : RState :=
  (resolverGetattr c4Set 10 c4State1 "m2").2

/-- A factory-metadata collaborator with one pre-declaration and two
post-generation declarations whose creation order (`p` before `q`) is the
opposite of their insertion order, plus deep context addressed to `q`. -/
def c7Meta : FactoryMeta :=
  { pre_declarations :=
      { declarations := [("f", V.lazyFunction 0 (Val.int 3))], contexts := [] }
    post_declarations :=
      { declarations := [("q", V.postGen 1 (Val.int 9)), ("p", V.postGen 0 (Val.int 8))]
        contexts := [("q", [("q", V.val (Val.int 5)), ("q__x", V.val (Val.int 6))])] }
    next_sequence_val := 42
    instantiate_result := Val.int 0 }

/-! ### Dictionary lemmas -/

theorem dictGet_dictSet_self {κ α : Type} [DecidableEq κ] (xs : List (κ × α)) (k : κ) (v : α) :
    dictGet (dictSet xs k v) k = some v := by
  induction xs with
  | nil => simp [dictGet, dictSet]
  | cons p ps ih =>
    by_cases h : p.1 = k
    · simp [dictSet, h, dictGet]
    · simp [dictSet, h, dictGet, ih]

theorem dictGet_dictSet_ne {κ α : Type} [DecidableEq κ] (xs : List (κ × α)) (k k1 : κ) (v : α)
    (hne : k1 ≠ k) : dictGet (dictSet xs k v) k1 = dictGet xs k1 := by
  induction xs with
  | nil => simp [dictGet, dictSet, Ne.symm hne]
  | cons p ps ih =>
    by_cases h : p.1 = k
    · simp [dictSet, h, dictGet, Ne.symm hne]
    · by_cases h1 : p.1 = k1
      · simp [dictSet, h, dictGet, h1, hne]
      · simp [dictSet, h, dictGet, h1, ih]

theorem dictGet_eq_none_iff {κ α : Type} [DecidableEq κ] (xs : List (κ × α)) (k : κ) :
    dictGet xs k = Option.none ↔ k ∉ xs.map Prod.fst := by
  induction xs with
  | nil => simp [dictGet]
  | cons p ps ih =>
    by_cases h : p.1 = k
    · simp [dictGet, h]
    · simp [dictGet, h, ih, Ne.symm h]

theorem dictGet_isSome_iff_mem {κ α : Type} [DecidableEq κ] (xs : List (κ × α)) (k : κ) :
    (dictGet xs k).isSome = true ↔ k ∈ xs.map Prod.fst := by
  rw [← Decidable.not_iff_not, ← dictGet_eq_none_iff]
  cases dictGet xs k <;> simp

theorem hasKey_eq_false_iff {κ α : Type} [DecidableEq κ] (xs : List (κ × α)) (k : κ) :
    hasKey xs k = false ↔ dictGet xs k = Option.none := by
  unfold hasKey
  cases dictGet xs k <;> simp

theorem hasKey_iff_mem {κ α : Type} [DecidableEq κ] (xs : List (κ × α)) (k : κ) :
    hasKey xs k = true ↔ k ∈ xs.map Prod.fst := by
  rw [← dictGet_isSome_iff_mem]
  unfold hasKey
  cases dictGet xs k <;> simp

theorem mem_keys_dictSet {κ α : Type} [DecidableEq κ] (xs : List (κ × α)) (k a : κ) (v : α) :
    a ∈ (dictSet xs k v).map Prod.fst ↔ a ∈ xs.map Prod.fst ∨ a = k := by
  induction xs with
  | nil => simp [dictSet]
  | cons p ps ih =>
    by_cases h : p.1 = k
    · by_cases ha : a = k <;> simp [dictSet, h, ha]
    · simp [dictSet, h, ih]
      tauto

theorem nodup_keys_dictSet {κ α : Type} [DecidableEq κ] (xs : List (κ × α)) (k : κ) (v : α)
    (h : (xs.map Prod.fst).Nodup) : ((dictSet xs k v).map Prod.fst).Nodup := by
  induction xs with
  | nil => simp [dictSet]
  | cons p ps ih =>
    by_cases hk : p.1 = k
    · subst hk
      simpa [dictSet] using h
    · simp only [dictSet, if_neg hk, List.map_cons, List.nodup_cons]
      simp only [List.map_cons, List.nodup_cons] at h
      constructor
      · intro hmem
        rcases (mem_keys_dictSet ps k p.1 v).mp hmem with h1 | h1
        · exact h.1 h1
        · exact hk h1
      · exact ih h.2

theorem dictSet_of_not_hasKey {κ α : Type} [DecidableEq κ] (xs : List (κ × α)) (k : κ) (v : α)
    (h : hasKey xs k = false) : dictSet xs k v = xs ++ [(k, v)] := by
  induction xs with
  | nil => simp [dictSet]
  | cons p ps ih =>
    rw [hasKey_eq_false_iff, dictGet] at h
    by_cases hk : p.1 = k
    · simp [hk] at h
    · simp only [hk, if_false] at h
      rw [← hasKey_eq_false_iff] at h
      simp [dictSet, hk, ih h]

theorem dictGet_append {κ α : Type} [DecidableEq κ] (xs ys : List (κ × α)) (k : κ) :
    dictGet (xs ++ ys) k =
      (match dictGet xs k with
       | some v => some v
       | Option.none => dictGet ys k) := by
  induction xs with
  | nil => simp [dictGet]
  | cons p ps ih =>
    by_cases h : p.1 = k <;> simp [dictGet, h, ih]

theorem dictGet_of_mem_nodup {κ α : Type} [DecidableEq κ] (xs : List (κ × α)) (k : κ) (v : α)
    (hnd : (xs.map Prod.fst).Nodup) (hmem : (k, v) ∈ xs) : dictGet xs k = some v := by
  induction xs with
  | nil => simp at hmem
  | cons p ps ih =>
    simp only [List.map_cons, List.nodup_cons] at hnd
    rcases List.mem_cons.mp hmem with h | h
    · rw [← h, dictGet]
      simp
    · have hk : p.1 ≠ k := by
        intro heq
        exact hnd.1 (heq ▸ (List.mem_map.mpr ⟨(k, v), h, rfl⟩))
      rw [dictGet, if_neg hk]
      exact ih hnd.2 h

/-! ### Claim theorems -/

/-- C1: the claim states that applying `update(m)` to the set returned by
`s.copy()` leaves `s` unchanged — both the field-to-declaration mapping and every
per-field deep-context mapping.  The code violates this: `copy()` copies the
`contexts` defaultdict shallowly, so the inner per-field context dicts are shared,
and a deep override applied to the copy writes through the shared dict.  Here the
base set `DeclarationSet({'x': 0, 'x__a': 1})` has deep context `{'a': 1}` for
`'x'` before the copy-update, and `{'a': 1, 'b': 2}` after
`s.copy().update({'x__b': 2})`, even though no error was raised and `s` itself
was never touched. -/
theorem C1_copy_update_mutates_base_context :
    AliasModel.contextOf c1Step0.1 c1Step0.2.1 "x" = [("a", V.val (Val.int 1))] ∧
    c1Step1.2.2 = false ∧
    AliasModel.contextOf c1Step0.1 c1Step1.2.1 "x"
      = [("a", V.val (Val.int 1)), ("b", V.val (Val.int 2))] ∧
    AliasModel.contextOf c1Step0.1 c1Step0.2.1 "x"
      ≠ AliasModel.contextOf c1Step0.1 c1Step1.2.1 "x" := by
  decide

/-- C2 counterexample: the claim states that `BuildStep.resolve` walks the field
names in ascending creation-index order (exactly `sorted()`), regardless of
insertion order.  But `resolve` iterates the declaration dict in insertion order:
on `c2Set` (field `'b'` of counter 1 inserted before field `'a'` of counter 0)
the walk order is `['b', 'a']` while `sorted()` returns `['a', 'b']`. -/
theorem C2_resolve_order_counterexample :
    resolveWalkOrder c2Set 5 = ["b", "a"] ∧
    c2Set.sortedNames 2 = some ["a", "b"] ∧
    (["b", "a"] : List String) ≠ ["a", "b"] := by
  decide

/-- C3: the claim states that every declaration instance is assigned its creation
index at construction, strictly greater than every previously constructed
declaration of the same kind, and that the index never changes.  `Maybe.__init__`
(declarations.py:431-435) never calls `super().__init__()`, so a `Maybe` gets no
instance counter: reading its `creation_counter` falls back to the class
attribute, i.e. the current global counter.  Concretely: construct a
`BaseDeclaration` (counter 0), then a `Maybe`, then another `BaseDeclaration`
(counter 1).  The `Maybe` reports counter 1 just after its construction and
counter 2 after the third construction (the index changed), and the third
declaration's index 1 is not strictly greater than the 1 the previously
constructed `Maybe` reported at that time. -/
theorem C3_maybe_skips_counter_assignment :
    maybeInit.ownCounter = Option.none ∧
    readCreationCounter maybeInit (baseDeclarationInit ⟨0, 0⟩).2 = 1 ∧
    readCreationCounter maybeInit (baseDeclarationInit (baseDeclarationInit ⟨0, 0⟩).2).2 = 2 ∧
    (baseDeclarationInit (baseDeclarationInit ⟨0, 0⟩).2).1.ownCounter = some 1 ∧
    ¬ (readCreationCounter (baseDeclarationInit (baseDeclarationInit ⟨0, 0⟩).2).1
         (baseDeclarationInit (baseDeclarationInit ⟨0, 0⟩).2).2
       > readCreationCounter maybeInit (baseDeclarationInit ⟨0, 0⟩).2) := by
  decide

/-- C4 counterexample: the claim states that for every resolver and declared
field `n`, the declaration's `evaluate` is invoked at most once over the
resolver's whole lifetime.  On `c4Set`, pulling `m1` and then `m2` (both
successful accesses) invokes the `evaluate` of the declared field `'d'` twice:
each `Maybe` decider lookup triggers it, its internal `AttributeError` (unknown
attribute `'z'`) is swallowed by the `getattr(instance, decider, None)` default,
and the failed evaluation leaves `'d'` uncached, so the second lookup re-invokes
it. -/
theorem C4_evaluate_twice_counterexample :
    dictGet c4Set.declarations "d" = some (V.lazyAttribute 5 (DExpr.ref "z")) ∧
    isBaseDeclaration (V.lazyAttribute 5 (DExpr.ref "z")) = true ∧
    (resolverGetattr c4Set 10 initRState "m1").1 = Except.ok (V.val (Val.int 2)) ∧
    (resolverGetattr c4Set 10 c4State1 "m2").1 = Except.ok (V.val (Val.int 2)) ∧
    c4State2.evalLog = ["m1", "d", "m2", "d"] ∧
    c4State2.evalLog.count "d" = 2 := by
  decide

/-! ### Resolver invariants -/

theorem resolverRun_pending (ds : DSet) :
    ∀ (fuel : Nat) (s : RState) (t : RTask),
      (resolverRun ds fuel s t).2.pending = s.pending := by
  intro fuel
  induction fuel with
  | zero => intro s t; rfl
  | succ n ih =>
    intro s t
    cases t with
    | attr name =>
      by_cases hp : name ∈ s.pending
      · simp [resolverRun, hp]
      · cases hv : dictGet s.values name with
        | some v => simp [resolverRun, hp, hv]
        | none =>
          cases hd : dictGet ds.declarations name with
          | none => simp [resolverRun, hp, hv, hd]
          | some dv =>
            by_cases hb : isBaseDeclaration dv
            · have hrec := ih
                { s with pending := s.pending ++ [name], evalLog := s.evalLog ++ [name] }
                (RTask.eval dv ((dictGet ds.contexts name).getD []))
              cases hres : resolverRun ds n
                  { s with pending := s.pending ++ [name], evalLog := s.evalLog ++ [name] }
                  (RTask.eval dv ((dictGet ds.contexts name).getD [])) with
              | mk r s2 =>
                rw [hres] at hrec
                simp only [Prod.snd] at hrec
                cases r with
                | ok v => simp [resolverRun, hp, hv, hd, hb, hres, hrec]
                | error e => simp [resolverRun, hp, hv, hd, hb, hres, hrec]
            · simp [resolverRun, hp, hv, hd, hb]
    | eval d extra =>
      cases d with
      | val v => rfl
      | lazyFunction c ret => rfl
      | lazyAttribute c body =>
        cases body with
        | lit v => rfl
        | ref m =>
          simp only [resolverRun]
          exact ih s (RTask.attr m)
      | postGen c r => rfl
      | maybe decider yes no =>
        cases hres : resolverRun ds n s (RTask.attr decider) with
        | mk r s1 =>
          have h1 := ih s (RTask.attr decider)
          rw [hres] at h1
          simp only [Prod.snd] at h1
          cases r with
          | ok dv =>
            by_cases hb : isBaseDeclaration (if pythonTruthyV dv then yes else no)
            · have h2 := ih s1 (RTask.eval (if pythonTruthyV dv then yes else no) extra)
              simp [resolverRun, hres, hb, h2, h1]
            · simp [resolverRun, hres, hb, h1]
          | error e =>
            cases e with
            | cyclic a b => simp [resolverRun, hres, h1]
            | fuelExhausted => simp [resolverRun, hres, h1]
            | unknownAttribute a b c =>
              by_cases hb : isBaseDeclaration no
              · have h2 := ih s1 (RTask.eval no extra)
                simp [resolverRun, hres, hb, h2, h1]
              · simp [resolverRun, hres, hb, h1]

theorem resolverRun_values_nodup (ds : DSet) :
    ∀ (fuel : Nat) (s : RState) (t : RTask),
      (s.values.map Prod.fst).Nodup →
      ((resolverRun ds fuel s t).2.values.map Prod.fst).Nodup := by
  intro fuel
  induction fuel with
  | zero => intro s t h; exact h
  | succ n ih =>
    intro s t h
    cases t with
    | attr name =>
      by_cases hp : name ∈ s.pending
      · simpa [resolverRun, hp] using h
      · cases hv : dictGet s.values name with
        | some v => simpa [resolverRun, hp, hv] using h
        | none =>
          cases hd : dictGet ds.declarations name with
          | none => simpa [resolverRun, hp, hv, hd] using h
          | some dv =>
            by_cases hb : isBaseDeclaration dv
            · have hrec := ih
                { s with pending := s.pending ++ [name], evalLog := s.evalLog ++ [name] }
                (RTask.eval dv ((dictGet ds.contexts name).getD [])) h
              cases hres : resolverRun ds n
                  { s with pending := s.pending ++ [name], evalLog := s.evalLog ++ [name] }
                  (RTask.eval dv ((dictGet ds.contexts name).getD [])) with
              | mk r s2 =>
                rw [hres] at hrec
                simp only [Prod.snd] at hrec
                cases r with
                | ok v =>
                  simp only [resolverRun, hp, if_neg hp, hv, hd, hb, if_pos hb, hres]
                  exact nodup_keys_dictSet _ _ _ hrec
                | error e =>
                  simpa [resolverRun, hp, hv, hd, hb, hres] using hrec
            · simp only [resolverRun, hp, if_neg hp, hv, hd, hb, if_neg hb]
              exact nodup_keys_dictSet _ _ _ h
    | eval d extra =>
      cases d with
      | val v => exact h
      | lazyFunction c ret => exact h
      | lazyAttribute c body =>
        cases body with
        | lit v => exact h
        | ref m =>
          simp only [resolverRun]
          exact ih s (RTask.attr m) h
      | postGen c r => exact h
      | maybe decider yes no =>
        cases hres : resolverRun ds n s (RTask.attr decider) with
        | mk r s1 =>
          have h1 := ih s (RTask.attr decider) h
          rw [hres] at h1
          simp only [Prod.snd] at h1
          cases r with
          | ok dv =>
            by_cases hb : isBaseDeclaration (if pythonTruthyV dv then yes else no)
            · have h2 := ih s1 (RTask.eval (if pythonTruthyV dv then yes else no) extra) h1
              simpa [resolverRun, hres, hb] using h2
            · simpa [resolverRun, hres, hb] using h1
          | error e =>
            cases e with
            | cyclic a b => simpa [resolverRun, hres] using h1
            | fuelExhausted => simpa [resolverRun, hres] using h1
            | unknownAttribute a b c =>
              by_cases hb : isBaseDeclaration no
              · have h2 := ih s1 (RTask.eval no extra) h1
                simpa [resolverRun, hres, hb] using h2
              · simpa [resolverRun, hres, hb] using h1

/-- A cached field is returned from the cache with no state change (and hence no
`evaluate` invocation): the `elif name in self.__values` branch of
`Resolver.__getattr__` (builder.py:305-306). -/
theorem resolverGetattr_cached (ds : DSet) (fuel : Nat) (s : RState) (name : String) (v : V)
    (hp : s.pending = []) (hv : dictGet s.values name = some v) :
    resolverGetattr ds (fuel + 1) s name = (Except.ok v, s) := by
  have hnp : name ∉ s.pending := by rw [hp]; exact List.not_mem_nil name
  simp [resolverGetattr, resolverRun, hnp, hv]

/-- A successful attribute access leaves the accessed name cached with the
returned value (builder.py:322). -/
theorem resolverGetattr_ok_caches (ds : DSet) (fuel : Nat) (s : RState) (name : String)
    (v : V) (s1 : RState)
    (h : resolverGetattr ds fuel s name = (Except.ok v, s1)) :
    dictGet s1.values name = some v := by
  cases fuel with
  | zero => simp [resolverGetattr, resolverRun] at h
  | succ n =>
    by_cases hp : name ∈ s.pending
    · simp [resolverGetattr, resolverRun, hp] at h
    · cases hv : dictGet s.values name with
      | some w =>
        simp [resolverGetattr, resolverRun, hp, hv] at h
        rw [← h.2, hv, h.1]
      | none =>
        cases hd : dictGet ds.declarations name with
        | none => simp [resolverGetattr, resolverRun, hp, hv, hd] at h
        | some dv =>
          by_cases hb : isBaseDeclaration dv
          · cases hres : resolverRun ds n
                { s with pending := s.pending ++ [name], evalLog := s.evalLog ++ [name] }
                (RTask.eval dv ((dictGet ds.contexts name).getD [])) with
            | mk r s2 =>
              cases r with
              | ok w =>
                simp [resolverGetattr, resolverRun, hp, hv, hd, hb, hres] at h
                rw [← h.2, ← h.1]
                exact dictGet_dictSet_self _ _ _
              | error e =>
                simp [resolverGetattr, resolverRun, hp, hv, hd, hb, hres] at h
          · simp [resolverGetattr, resolverRun, hp, hv, hd, hb] at h
            rw [← h.2, ← h.1]
            exact dictGet_dictSet_self _ _ _

/-- C4 (amended): per resolver lifetime, each field is cached at most once and
the first successful access is what caches it; once cached, every later access
returns the cached value with no state change at all (in particular, without
re-invoking `evaluate`).  The original claim's "evaluate is invoked at most once"
is refuted by `C4_evaluate_twice_counterexample`: an `evaluate` that raises does
not cache, and the field can be re-evaluated later. -/
theorem C4_cache_at_most_once (ds : DSet) (s : RState) (h : Reachable ds s) :
    s.pending = [] ∧
    (s.values.map Prod.fst).Nodup ∧
    (∀ name v fuel, dictGet s.values name = some v →
      resolverGetattr ds (fuel + 1) s name = (Except.ok v, s)) ∧
    (∀ name v fuel s1, resolverGetattr ds fuel s name = (Except.ok v, s1) →
      dictGet s1.values name = some v) := by
  induction h with
  | init =>
    refine ⟨rfl, by simp [initRState], ?_, ?_⟩
    · intro name v fuel hv
      exact resolverGetattr_cached ds fuel initRState name v rfl hv
    · intro name v fuel s1 hok
      exact resolverGetattr_ok_caches ds fuel initRState name v s1 hok
  | step s0 fuel0 name0 _ ih =>
    have hpend : (resolverGetattr ds fuel0 s0 name0).2.pending = s0.pending :=
      resolverRun_pending ds fuel0 s0 (RTask.attr name0)
    have hnd : (((resolverGetattr ds fuel0 s0 name0).2.values.map Prod.fst)).Nodup :=
      resolverRun_values_nodup ds fuel0 s0 (RTask.attr name0) ih.2.1
    refine ⟨hpend.trans ih.1, hnd, ?_, ?_⟩
    · intro name v fuel hv
      exact resolverGetattr_cached ds fuel _ name v (hpend.trans ih.1) hv
    · intro name v fuel s1 hok
      exact resolverGetattr_ok_caches ds fuel _ name v s1 hok

/-- C4 (amended) witness at a concrete reachable state: after pulling `m1` on
`c4Set` the pending stack is empty, the cache keys are duplicate-free, and the
cached value of `m1` is returned unchanged. -/
theorem C4_cache_at_most_once_witness :
    c4State1.pending = [] ∧
    (c4State1.values.map Prod.fst).Nodup ∧
    resolverGetattr c4Set 3 c4State1 "m1" = (Except.ok (V.val (Val.int 2)), c4State1) := by
  have h := C4_cache_at_most_once c4Set c4State1
    (Reachable.step initRState 10 "m1" Reachable.init)
  exact ⟨h.1, h.2.1, h.2.2.1 "m1" (V.val (Val.int 2)) 2 (by decide)⟩

/-- C5: accessing a name that is on the pending stack raises the cyclic-definition
error carrying that name and the full pending stack (builder.py:301-304); in
particular a declared field whose computation reads itself fails that way, with
the field alone on the stack at the moment of the re-entrant access. -/
theorem C5_cyclic_detection :
    (∀ (ds : DSet) (fuel : Nat) (s : RState) (name : String),
      name ∈ s.pending →
      resolverGetattr ds (fuel + 1) s name = (Except.error (RErr.cyclic name s.pending), s)) ∧
    (∀ (ds : DSet) (k : Nat) (name : String) (c : Nat),
      dictGet ds.declarations name = some (V.lazyAttribute c (DExpr.ref name)) →
      resolverGetattr ds (k + 3) initRState name =
        (Except.error (RErr.cyclic name [name]),
         { values := [], pending := [], evalLog := [name] })) := by
  constructor
  · intro ds fuel s name hp
    simp [resolverGetattr, resolverRun, hp]
  · intro ds k name c hd
    have hnp : name ∉ initRState.pending := List.not_mem_nil name
    have hv : dictGet initRState.values name = Option.none := rfl
    simp [resolverGetattr, resolverRun, hnp, hv, hd, isBaseDeclaration, initRState, dictGet]

/-- C5 witness: both parts applied at concrete inputs — a state with `a` pending,
and the set `{'a': LazyAttribute(lambda o: o.a)}` resolved from scratch. -/
theorem C5_cyclic_detection_witness :
    resolverGetattr { declarations := [], contexts := [] } 1
        { values := [], pending := ["a"], evalLog := [] } "a" =
      (Except.error (RErr.cyclic "a" ["a"]),
       { values := [], pending := ["a"], evalLog := [] }) ∧
    resolverGetattr
        { declarations := [("a", V.lazyAttribute 0 (DExpr.ref "a"))], contexts := [] } 4
        initRState "a" =
      (Except.error (RErr.cyclic "a" ["a"]),
       { values := [], pending := [], evalLog := ["a"] }) := by
  refine ⟨?_, ?_⟩
  · exact C5_cyclic_detection.1 { declarations := [], contexts := [] } 0
      { values := [], pending := ["a"], evalLog := [] } "a" (by decide)
  · exact C5_cyclic_detection.2
      { declarations := [("a", V.lazyAttribute 0 (DExpr.ref "a"))], contexts := [] } 1
      "a" 0 (by decide)

/-- C10: evaluating a `Maybe` whose decider names a field that is not declared
(nor cached, nor pending) on the resolver does not raise the unknown-attribute
error: `getattr(instance, decider, None)` swallows the `AttributeError`, the
decider is `None` (falsy), and the `no` branch is evaluated — returned as is if
it is not a `BaseDeclaration`, recursively evaluated otherwise; with the default
(no configured `no` branch, i.e. Python `None`) the result is `None`. -/
theorem C10_maybe_missing_decider (ds : DSet) (fuel : Nat) (s : RState)
    (decider : String) (yes no : V) (extra : List (String × V))
    (hp : decider ∉ s.pending)
    (hv : dictGet s.values decider = Option.none)
    (hd : dictGet ds.declarations decider = Option.none) :
    resolverRun ds (fuel + 2) s (RTask.eval (V.maybe decider yes no) extra) =
      (if isBaseDeclaration no then resolverRun ds (fuel + 1) s (RTask.eval no extra)
       else (Except.ok no, s)) ∧
    resolverRun ds (fuel + 2) s (RTask.eval (V.maybe decider yes (V.val Val.none)) extra) =
      (Except.ok (V.val Val.none), s) := by
  constructor
  · by_cases hb : isBaseDeclaration no
    · simp [resolverRun, hp, hv, hd, hb]
    · simp [resolverRun, hp, hv, hd, hb]
  · simp [resolverRun, hp, hv, hd, isBaseDeclaration]

/-- C10 witness: a `Maybe` on the undeclared decider `'nope'` with no configured
`no` branch evaluates to `None` without error. -/
theorem C10_maybe_missing_decider_witness :
    resolverRun { declarations := [("m", V.maybe "nope" (V.val (Val.int 1)) (V.val Val.none))], contexts := [] }
        4 initRState
        (RTask.eval (V.maybe "nope" (V.val (Val.int 1)) (V.val Val.none)) []) =
      (Except.ok (V.val Val.none), initRState) := by
  exact (C10_maybe_missing_decider
    { declarations := [("m", V.maybe "nope" (V.val (Val.int 1)) (V.val Val.none))], contexts := [] }
    2 initRState "nope" (V.val (Val.int 1)) (V.val Val.none) []
    (by decide) (by decide) (by decide)).2

/-! ### Resolution walk order (claim C2) -/

theorem hasKey_eq_false_iff_not_mem {κ α : Type} [DecidableEq κ] (xs : List (κ × α)) (k : κ) :
    hasKey xs k = false ↔ k ∉ xs.map Prod.fst := by
  rw [hasKey_eq_false_iff, dictGet_eq_none_iff]

theorem resolveFields_keys (ds : DSet) (fuel : Nat) :
    ∀ (ks : List String) (s : RState) (acc attrs : List (String × V)) (s1 : RState),
      ((acc.map Prod.fst) ++ ks).Nodup →
      resolveFields ds fuel ks s acc = Except.ok (attrs, s1) →
      attrs.map Prod.fst = acc.map Prod.fst ++ ks := by
  intro ks
  induction ks with
  | nil =>
    intro s acc attrs s1 hnd hok
    simp only [resolveFields, Except.ok.injEq, Prod.mk.injEq] at hok
    rw [← hok.1]
    simp
  | cons n ns ih =>
    intro s acc attrs s1 hnd hok
    simp only [resolveFields] at hok
    cases hres : resolverGetattr ds fuel s n with
    | mk r s2 =>
      rw [hres] at hok
      cases r with
      | error e => simp at hok
      | ok v =>
        simp only at hok
        have hn : n ∉ acc.map Prod.fst := by
          rcases (List.nodup_append.mp hnd) with ⟨_, _, hdisj⟩
          intro hmem
          exact hdisj hmem (List.mem_cons_self n ns)
        rw [dictSet_of_not_hasKey _ _ _ ((hasKey_eq_false_iff_not_mem acc n).mpr hn)] at hok
        have hstep := ih s2 (acc ++ [(n, v)]) attrs s1
          (by simpa [List.append_assoc] using hnd) hok
        rw [hstep]
        simp

/-- C2 (amended): `BuildStep.resolve` pulls the declared fields — and fills the
step's attribute map — walking the field names in the declaration mapping's
iteration (insertion) order, not in `sorted()` creation-index order: when
resolution succeeds, the attribute map holds exactly the declared field names in
insertion order.  The original claim's "exactly the order returned by sorted(),
regardless of insertion order" is refuted by `C2_resolve_order_counterexample`. -/
theorem C2_resolve_walks_insertion_order (ds : DSet) (fuel : Nat)
    (attrs : List (String × V)) (s1 : RState)
    (hnd : (ds.declarations.map Prod.fst).Nodup)
    (hok : buildStepResolve ds fuel = Except.ok (attrs, s1)) :
    attrs.map Prod.fst = ds.declarations.map Prod.fst := by
  have h := resolveFields_keys ds fuel (ds.declarations.map Prod.fst) initRState [] attrs s1
    (by simpa using hnd) hok
  simpa using h

/-- C2 (amended) witness: on `c2Set` the resolved attribute map lists exactly the
declared fields in insertion order `['b', 'a']`. -/
theorem C2_resolve_walks_insertion_order_witness :
    ([("b", V.val (Val.int 10)), ("a", V.val (Val.int 20))] : List (String × V)).map Prod.fst
      = c2Set.declarations.map Prod.fst := by
  exact C2_resolve_walks_insertion_order c2Set 5
    [("b", V.val (Val.int 10)), ("a", V.val (Val.int 20))]
    { values := [("b", V.val (Val.int 10)), ("a", V.val (Val.int 20))]
      pending := [], evalLog := ["b", "a"] }
    (by decide) (by decide)

/-! ### Sequence selection (claim C6) -/

/-- C6: in `StepBuilder.build`, the sequence assigned to the `BuildStep` is the
`force_sequence` argument when one was passed (not `None`); otherwise the pinned
`'__sequence'` override stripped from the overrides at `StepBuilder`
construction, when present (and not `None`); otherwise
`factory_meta.next_sequence()` — and a pinned override therefore reproduces
exactly that integer as the step's sequence. -/
theorem C6_sequence_priority (meta : FactoryMeta) (extras : List (String × V))
    (force : V) (fuel g : Nat) (outcome : BuildOutcome)
    (hok : stepBuilderBuild (stepBuilderInit meta extras) force fuel g = Except.ok outcome) :
    (stepBuilderInit meta extras).force_init_sequence
        = (dictGet extras "__sequence").getD (V.val Val.none) ∧
    outcome.sequence =
      (if force ≠ V.val Val.none then force
       else if (dictGet extras "__sequence").getD (V.val Val.none) ≠ V.val Val.none then
         (dictGet extras "__sequence").getD (V.val Val.none)
       else V.val (Val.int meta.next_sequence_val)) := by
  refine ⟨rfl, ?_⟩
  simp only [stepBuilderBuild] at hok
  split at hok
  · simp at hok
  · split at hok
    · simp at hok
    · split at hok
      · simp at hok
      · split at hok
        · simp at hok
        · simp only [Except.ok.injEq] at hok
          rw [← hok]
          rfl

/-- C6 witness: a pinned `'__sequence': 7` override, no forced sequence, a
factory whose `next_sequence()` would return 42 — the step's sequence is 7. -/
theorem C6_sequence_priority_witness :
    (stepBuilderInit
        { pre_declarations := { declarations := [], contexts := [] }
          post_declarations := { declarations := [], contexts := [] }
          next_sequence_val := 42
          instantiate_result := Val.int 0 }
        [("__sequence", V.val (Val.int 7))]).force_init_sequence
      = (dictGet [("__sequence", V.val (Val.int 7))] "__sequence").getD (V.val Val.none) ∧
    ({ sequence := V.val (Val.int 7), attributes := [], events := [BuildEvent.instantiated],
       postgenResults := [] } : BuildOutcome).sequence =
      (if (V.val Val.none : V) ≠ V.val Val.none then V.val Val.none
       else if (dictGet [("__sequence", V.val (Val.int 7))] "__sequence").getD (V.val Val.none)
           ≠ V.val Val.none then
         (dictGet [("__sequence", V.val (Val.int 7))] "__sequence").getD (V.val Val.none)
       else V.val (Val.int 42)) := by
  exact C6_sequence_priority
    { pre_declarations := { declarations := [], contexts := [] }
      post_declarations := { declarations := [], contexts := [] }
      next_sequence_val := 42
      instantiate_result := Val.int 0 }
    [("__sequence", V.val (Val.int 7))] (V.val Val.none) 4 0
    { sequence := V.val (Val.int 7), attributes := [], events := [BuildEvent.instantiated],
      postgenResults := [] }
    (by decide)

/-! ### Update validation (claim C8) -/

theorem mem_offending_foldr (cs : List (String × List (String × V))) (extra : List String)
    (k : String) (v : V) :
    (k, v) ∈ extra.foldr
        (fun root acc =>
          ((dictGet cs root).getD []).map (fun p => (DSet.join root p.1, p.2)) ++ acc)
        [] ↔
      ∃ root sub, root ∈ extra ∧ (sub, v) ∈ ((dictGet cs root).getD []) ∧
        k = DSet.join root sub := by
  induction extra with
  | nil => simp
  | cons r rs ih =>
    simp only [List.foldr_cons, List.mem_append, ih, List.mem_map]
    constructor
    · rintro (⟨⟨sub, w⟩, hp, heq⟩ | ⟨root, sub, hroot, hsub, hk⟩)
      · injection heq with hk hv
        subst hv
        exact ⟨r, sub, List.mem_cons_self r rs, hp, hk.symm⟩
      · exact ⟨root, sub, List.mem_cons_of_mem r hroot, hsub, hk⟩
    · rintro ⟨root, sub, hroot, hsub, hk⟩
      rcases List.mem_cons.mp hroot with h | h
      · subst h
        exact Or.inl ⟨(sub, v), hsub, by rw [hk]⟩
      · exact Or.inr ⟨root, sub, h, hsub, hk⟩

/-- C8: `DeclarationSet.update(m)` raises the invalid-declaration error exactly
when, after applying every key of `m` (the check runs once per call, on the fully
applied set — so supplying a new field together with deep context rooted at it in
the same call succeeds), some deep-context root has no corresponding field; the
error payload carries exactly the offending deep keys (each root joined with each
of its sub-keys, with their values) and the known field names (sorted). -/
theorem C8_update_validation (s : DSet) (vs : List (String × V)) :
    (s.update vs).1 = s.applyValues vs ∧
    ((s.update vs).2 = Option.none ↔
      ∀ root ∈ (s.applyValues vs).contexts.map Prod.fst,
        hasKey (s.applyValues vs).declarations root = true) ∧
    (∀ e, (s.update vs).2 = some e →
      e.known.Perm ((s.applyValues vs).declarations.map Prod.fst) ∧
      e.known.Sorted (fun a b : String => a ≤ b) ∧
      (∀ k v, (k, v) ∈ e.offending ↔
        ∃ root sub, root ∈ (s.applyValues vs).extraContextRoots ∧
          (sub, v) ∈ ((dictGet (s.applyValues vs).contexts root).getD []) ∧
          k = DSet.join root sub)) := by
  refine ⟨?_, ?_, ?_⟩
  · simp only [DSet.update]
    split <;> rfl
  · simp only [DSet.update]
    split
    · next hnil =>
      unfold DSet.extraContextRoots at hnil
      constructor
      · intro _ root hroot
        have := (List.filter_eq_nil_iff.mp hnil) root hroot
        simpa using this
      · intro _
        rfl
    · next hnil =>
      unfold DSet.extraContextRoots at hnil
      constructor
      · intro h
        exact absurd h (by simp)
      · intro hall
        exact absurd
          (List.filter_eq_nil_iff.mpr (fun root hroot => by simp [hall root hroot])) hnil
  · intro e he
    simp only [DSet.update] at he
    split at he
    · exact Option.noConfusion he
    · simp only [Option.some.injEq] at he
      subst he
      refine ⟨List.perm_insertionSort _ _, List.sorted_insertionSort _ _, ?_⟩
      intro k v
      exact mem_offending_foldr _ _ k v

/-- C8 witness: on `DeclarationSet({'a': 1})`, an update supplying both the new
field `'b'` and deep context `'b__x'` rooted at it in the same call raises no
error, while an update supplying only the deep key `'zz__k'` raises, with
`'zz__k'` among the offending keys. -/
theorem C8_update_validation_witness :
    (DSet.update { declarations := [("a", V.val (Val.int 1))], contexts := [] }
        [("b", V.val (Val.int 2)), ("b__x", V.val (Val.int 3))]).2 = Option.none ∧
    (("zz__k", V.val (Val.int 3)) ∈
      ({ offending := [("zz__k", V.val (Val.int 3))], known := ["a"] } : UpdateError).offending) := by
  constructor
  · exact (C8_update_validation { declarations := [("a", V.val (Val.int 1))], contexts := [] }
      [("b", V.val (Val.int 2)), ("b__x", V.val (Val.int 3))]).2.1.mpr (by decide)
  · exact ((C8_update_validation { declarations := [("a", V.val (Val.int 1))], contexts := [] }
      [("zz__k", V.val (Val.int 3))]).2.2
        { offending := [("zz__k", V.val (Val.int 3))], known := ["a"] } (by decide)).2.2
        "zz__k" (V.val (Val.int 3)) |>.mpr ⟨"zz", "k", by decide, by decide, by decide⟩

/-! ### Method-call hook arguments (claim C9) -/

theorem dictGet_update_fold {κ α : Type} [DecidableEq κ] (ex : List (κ × α)) :
    ∀ (acc : List (κ × α)) (k : κ),
      (ex.map Prod.fst).Nodup →
      dictGet (ex.foldl (fun a p => dictSet a p.1 p.2) acc) k =
        optionFirst (dictGet ex k) (dictGet acc k) := by
  induction ex with
  | nil => intro acc k _; simp [dictGet, optionFirst]
  | cons p ps ih =>
    intro acc k h
    simp only [List.map_cons, List.nodup_cons] at h
    simp only [List.foldl_cons]
    rw [ih _ k h.2]
    by_cases hk : p.1 = k
    · subst hk
      have hnone : dictGet ps p.1 = Option.none := (dictGet_eq_none_iff ps p.1).mpr h.1
      simp [dictGet, hnone, dictGet_dictSet_self, optionFirst]
    · cases hq : dictGet ps k with
      | some w => simp [dictGet, hk, hq, optionFirst]
      | none => simp [dictGet, hk, hq, optionFirst, dictGet_dictSet_ne _ _ _ _ (Ne.symm hk)]

/-- C9: the arguments of `PostGenerationMethodCall.call` — when no value was
supplied, the statically configured positional arguments are used unchanged; when
a value was supplied and at most one static positional argument was configured,
the supplied value becomes the single positional argument; when a value was
supplied and more than one static positional argument was configured, the
supplied value is unpacked (`tuple(value)`) as the full positional-argument
sequence; and the keyword arguments are always the static configuration
overridden, key by key, by the deep-context extras. -/
theorem C9_method_call_arguments (m : PostGenerationMethodCall)
    (context : ExtractionContext) :
    (context.did_extract = false → m.passedArguments context = some m.method_args) ∧
    (context.did_extract = true → m.method_args.length ≤ 1 →
      m.passedArguments context = some [context.value]) ∧
    (∀ xs, context.did_extract = true → 1 < m.method_args.length →
      context.value = V.val (Val.tup xs) →
      m.passedArguments context = some (xs.map V.val)) ∧
    ((context.extra.map Prod.fst).Nodup →
      ∀ k, dictGet (m.passedKeywordArguments context) k =
        optionFirst (dictGet context.extra k) (dictGet m.method_kwargs k)) := by
  refine ⟨?_, ?_, ?_, ?_⟩
  · intro h
    simp [PostGenerationMethodCall.passedArguments, h]
  · intro h hlen
    simp [PostGenerationMethodCall.passedArguments, h, hlen]
  · intro xs h hlen hval
    have : ¬ m.method_args.length ≤ 1 := by omega
    simp [PostGenerationMethodCall.passedArguments, h, this, hval, tupleOfV]
  · intro hnd k
    have h := dictGet_update_fold context.extra m.method_kwargs k hnd
    simpa [PostGenerationMethodCall.passedKeywordArguments] using h

/-- C9 witness: two static positional arguments and a supplied pair `(7, 8)` —
the pair is unpacked as the full positional-argument list; the static keyword
`'k': 0` is overridden by the extra `'k': 5`. -/
theorem C9_method_call_arguments_witness :
    PostGenerationMethodCall.passedArguments
        { method_name := "m", method_args := [V.val (Val.int 1), V.val (Val.int 2)]
          method_kwargs := [("k", V.val (Val.int 0))] }
        { value := V.val (Val.tup [Val.int 7, Val.int 8]), did_extract := true
          extra := [("k", V.val (Val.int 5))], for_field := "m" }
      = some [V.val (Val.int 7), V.val (Val.int 8)] ∧
    dictGet
        (PostGenerationMethodCall.passedKeywordArguments
          { method_name := "m", method_args := [V.val (Val.int 1), V.val (Val.int 2)]
            method_kwargs := [("k", V.val (Val.int 0))] }
          { value := V.val (Val.tup [Val.int 7, Val.int 8]), did_extract := true
            extra := [("k", V.val (Val.int 5))], for_field := "m" })
        "k" = some (V.val (Val.int 5)) := by
  have h := C9_method_call_arguments
    { method_name := "m", method_args := [V.val (Val.int 1), V.val (Val.int 2)]
      method_kwargs := [("k", V.val (Val.int 0))] }
    { value := V.val (Val.tup [Val.int 7, Val.int 8]), did_extract := true
      extra := [("k", V.val (Val.int 5))], for_field := "m" }
  refine ⟨h.2.2.1 [Val.int 7, Val.int 8] (by decide) (by decide) (by decide), ?_⟩
  rw [h.2.2.2 (by decide) "k"]
  decide

/-! ### Post-generation pipeline (claim C7) -/

theorem runPostgen_spec (post : DSet) :
    ∀ (ks : List String) (acc res : List (String × Val)),
      ks.Nodup →
      (∀ k ∈ ks, hasKey acc k = false) →
      runPostgen post ks acc = Except.ok res →
      res.map Prod.fst = acc.map Prod.fst ++ ks ∧
      (∀ k, k ∉ ks → dictGet res k = dictGet acc k) ∧
      (∀ n, n ∈ ks →
        dictGet res n =
          (dictGet post.declarations n).bind
            (fun d => pgCall d (pgExtract n ((dictGet post.contexts n).getD [])))) := by
  intro ks
  induction ks with
  | nil =>
    intro acc res _ _ hok
    simp only [runPostgen, Except.ok.injEq] at hok
    subst hok
    exact ⟨by simp, fun _ _ => rfl, by simp⟩
  | cons n ns ih =>
    intro acc res hnd hfresh hok
    cases hd : dictGet post.declarations n with
    | none => simp [runPostgen, hd] at hok
    | some d =>
      cases hc : pgCall d (pgExtract n ((dictGet post.contexts n).getD [])) with
      | none => simp [runPostgen, hd, hc] at hok
      | some r =>
        simp only [runPostgen, hd, hc] at hok
        have hfreshn : hasKey acc n = false := hfresh n (List.mem_cons_self n ns)
        rw [dictSet_of_not_hasKey _ _ _ hfreshn] at hok
        have hnodup := List.nodup_cons.mp hnd
        have hfresh2 : ∀ k ∈ ns, hasKey (acc ++ [(n, r)]) k = false := by
          intro k hk
          rw [hasKey_eq_false_iff, dictGet_append]
          have h1 : dictGet acc k = Option.none :=
            (hasKey_eq_false_iff _ _).mp (hfresh k (List.mem_cons_of_mem n hk))
          have h2 : k ≠ n := fun h => hnodup.1 (h ▸ hk)
          simp [h1, dictGet, Ne.symm h2]
        obtain ⟨ihk, iho, ihm⟩ := ih (acc ++ [(n, r)]) res hnodup.2 hfresh2 hok
        refine ⟨?_, ?_, ?_⟩
        · rw [ihk]; simp
        · intro k hk
          have hkn : k ≠ n := fun h => hk (h ▸ List.mem_cons_self n ns)
          have hkns : k ∉ ns := fun h => hk (List.mem_cons_of_mem n h)
          rw [iho k hkns, dictGet_append]
          cases hq : dictGet acc k with
          | some w => simp
          | none => simp [dictGet, Ne.symm hkn]
        · intro m hm
          rcases List.mem_cons.mp hm with h | h
          · subst h
            rw [iho m hnodup.1, dictGet_append]
            have hnone : dictGet acc m = Option.none := (hasKey_eq_false_iff _ _).mp hfreshn
            simp [hnone, dictGet, hd, hc]
          · exact ihm m h

theorem sortedNames_spec (s : DSet) (g : Nat) (names : List String)
    (h : s.sortedNames g = some names) :
    names = ((s.counterPairs g).insertionSort ctrLe).map Prod.fst := by
  unfold DSet.sortedNames at h
  split at h
  · simp only [Option.some.injEq] at h
    exact h.symm
  · exact Option.noConfusion h

theorem sortedNames_perm (s : DSet) (g : Nat) (names : List String)
    (h : s.sortedNames g = some names) :
    names.Perm (s.declarations.map Prod.fst) := by
  rw [sortedNames_spec s g names h]
  have hp : ((s.counterPairs g).insertionSort ctrLe).Perm (s.counterPairs g) :=
    List.perm_insertionSort ctrLe _
  have hmap := hp.map Prod.fst
  simpa [DSet.counterPairs, List.map_map, Function.comp] using hmap

theorem sortedNames_ascending (s : DSet) (g : Nat) (names : List String)
    (hnd : (s.declarations.map Prod.fst).Nodup)
    (h : s.sortedNames g = some names) :
    names.Pairwise (fun a b =>
      ((dictGet s.declarations a).bind (pythonCreationCounter g)).getD 0 ≤
      ((dictGet s.declarations b).bind (pythonCreationCounter g)).getD 0) := by
  rw [sortedNames_spec s g names h, List.pairwise_map]
  have hs : ((s.counterPairs g).insertionSort ctrLe).Pairwise ctrLe :=
    List.sorted_insertionSort ctrLe _
  have hfact : ∀ x ∈ (s.counterPairs g).insertionSort ctrLe,
      ((dictGet s.declarations x.1).bind (pythonCreationCounter g)).getD 0 = x.2 := by
    intro x hx
    have hx2 : x ∈ s.counterPairs g := (List.mem_insertionSort ctrLe).mp hx
    unfold DSet.counterPairs at hx2
    rcases List.mem_map.mp hx2 with ⟨q0, hq0, hxq⟩
    subst hxq
    rw [dictGet_of_mem_nodup s.declarations q0.1 q0.2 hnd hq0]
    rfl
  refine List.Pairwise.imp_of_mem ?_ hs
  intro p q hp hq hle
  rw [hfact p hp, hfact q hq]
  exact hle

/-- C7: in every successful `StepBuilder.build` call, the post-generation
declarations run strictly after the instantiate callback (the event trace is the
instantiation followed by exactly the post-generation calls), each exactly once
(the execution order is duplicate-free and a permutation of the declared
post-generation names), in ascending creation-index order; and the results map
handed to `use_postgeneration_results` has exactly one entry per post-declaration
name, in that order, mapping it to that declaration's `call` result on its
extracted context. -/
theorem C7_postgen_pipeline (sb : StepBuilderState) (force : V) (fuel g : Nat)
    (pre post : DSet) (outcome : BuildOutcome)
    (hparse : parse_declarations sb.extras sb.factory_meta.pre_declarations
        sb.factory_meta.post_declarations = Except.ok (pre, post))
    (hnd : (post.declarations.map Prod.fst).Nodup)
    (hok : stepBuilderBuild sb force fuel g = Except.ok outcome) :
    ∃ names,
      post.sortedNames g = some names ∧
      outcome.events = BuildEvent.instantiated :: names.map BuildEvent.postgenCalled ∧
      names.Perm (post.declarations.map Prod.fst) ∧
      names.Nodup ∧
      names.Pairwise (fun a b =>
        ((dictGet post.declarations a).bind (pythonCreationCounter g)).getD 0 ≤
        ((dictGet post.declarations b).bind (pythonCreationCounter g)).getD 0) ∧
      outcome.postgenResults.map Prod.fst = names ∧
      (∀ n d, dictGet post.declarations n = some d →
        dictGet outcome.postgenResults n =
          pgCall d (pgExtract n ((dictGet post.contexts n).getD []))) := by
  simp only [stepBuilderBuild] at hok
  rw [hparse] at hok
  simp only at hok
  split at hok
  · simp at hok
  · split at hok
    · simp at hok
    · next names hnames =>
      split at hok
      · simp at hok
      · next results hrun =>
        simp only [Except.ok.injEq] at hok
        subst hok
        have hperm := sortedNames_perm post g names hnames
        have hnodupnames : names.Nodup := hperm.symm.nodup hnd
        obtain ⟨hk, _, hm⟩ := runPostgen_spec post names [] results hnodupnames
          (fun _ _ => rfl) hrun
        refine ⟨names, hnames, rfl, hperm, hnodupnames,
          sortedNames_ascending post g names hnd hnames, by simpa using hk, ?_⟩
        intro n d hd
        have hmemk : n ∈ post.declarations.map Prod.fst :=
          (dictGet_isSome_iff_mem _ _).mp (by rw [hd]; rfl)
        have hmemn : n ∈ names := hperm.mem_iff.mpr hmemk
        rw [hm n hmemn, hd]
        rfl

/-- C7 witness: building with `c7Meta` (post-declarations `q` then `p` inserted
in the opposite of creation order) runs `p` then `q` after instantiation, with
one result per post-declaration name. -/
theorem C7_postgen_pipeline_witness :
    ∃ names,
      c7Meta.post_declarations.sortedNames 2 = some names ∧
      ({ sequence := V.val (Val.int 7)
         attributes := [("f", V.val (Val.int 3)), ("g", V.val (Val.int 1))]
         events := [BuildEvent.instantiated, BuildEvent.postgenCalled "p",
                    BuildEvent.postgenCalled "q"]
         postgenResults := [("p", Val.int 8), ("q", Val.int 9)] } : BuildOutcome).events
        = BuildEvent.instantiated :: names.map BuildEvent.postgenCalled ∧
      names.Perm (c7Meta.post_declarations.declarations.map Prod.fst) ∧
      names.Nodup ∧
      names.Pairwise (fun a b =>
        ((dictGet c7Meta.post_declarations.declarations a).bind
          (pythonCreationCounter 2)).getD 0 ≤
        ((dictGet c7Meta.post_declarations.declarations b).bind
          (pythonCreationCounter 2)).getD 0) ∧
      ([("p", Val.int 8), ("q", Val.int 9)] : List (String × Val)).map Prod.fst = names ∧
      (∀ n d, dictGet c7Meta.post_declarations.declarations n = some d →
        dictGet ([("p", Val.int 8), ("q", Val.int 9)] : List (String × Val)) n =
          pgCall d (pgExtract n
            ((dictGet c7Meta.post_declarations.contexts n).getD []))) := by
  exact C7_postgen_pipeline
    (stepBuilderInit c7Meta [("__sequence", V.val (Val.int 7)), ("g", V.val (Val.int 1))])
    (V.val Val.none) 10 2
    { declarations := [("f", V.lazyFunction 0 (Val.int 3)), ("g", V.val (Val.int 1))]
      contexts := [] }
    c7Meta.post_declarations
    { sequence := V.val (Val.int 7)
      attributes := [("f", V.val (Val.int 3)), ("g", V.val (Val.int 1))]
      events := [BuildEvent.instantiated, BuildEvent.postgenCalled "p",
                 BuildEvent.postgenCalled "q"]
      postgenResults := [("p", Val.int 8), ("q", Val.int 9)] }
    (by decide) (by decide) (by decide)

end FactoryBoy
